import Mathlib

/-!
Shallow embedding of `apps/search-api/populate_embeddings.py`: a batch
enrichment script that selects up to 1000 documents whose `embedding`
field is absent, null or empty, partitions them into batches of 10,
requests one vector per input text from an embedding provider, and
writes each non-empty returned vector back to its record.

Modelling decisions:
* Embedding vectors are `List Int` stand-ins for the provider's numeric
  vectors: the script never computes with the components, it only tests
  emptiness and stores them.
* A Mongo document's `embedding` field is `Option (Option Vec)`:
  `none` = field absent, `some none` = field null, `some (some v)` = the
  vector `v` (possibly empty).
* The provider call for a batch is an oracle `Nat → Except Unit (List Vec)`
  indexed by batch ordinal: `Except.error` models the call raising,
  `Except.ok vs` models a response whose vector list is `vs` (possibly of
  the wrong length, modelling a malformed response; indexing past its end
  raises `IndexError` in the source, caught by the same handler).
* Side effects (prints, the provider call, the sleep, closing the
  connection) are recorded as an event trace.
-/

namespace PopulateEmbeddings

/-- Embedding vector (components are opaque stand-ins for the floats). -/
abbrev Vec := List Int

/-- A document of the collection: `_id`, optional `name` and `description`
(absent when `none`), and the `embedding` field per the convention above. -/
structure Record where
  id : Nat
  name : Option String
  description : Option String
  embedding : Option (Option Vec)
deriving DecidableEq, Repr

/-- The collection, as an ordered list of documents. -/
abbrev Store := List Record

/-- `BATCH_SIZE = 10`. -/
def BATCH_SIZE : Nat := 10

/-- The Mongo filter
`{"$or": [{"embedding": {"$exists": False}}, {"embedding": None}, {"embedding": {"$size": 0}}]}`
as a predicate on one document. -/
def isCandidate (r : Record) : Bool :=
  match r.embedding with
  | none => true
  | some none => true
  | some (some v) => v.isEmpty

/-- `list(collection.find(query).limit(1000))`: the documents matching the
candidate filter, in collection order, capped at 1000. -/
def selection (st : Store) : List Record :=
  (st.filter isCandidate).take 1000

/-- `f"{product.get('name', '')} {product.get('description', '')}"`. -/
def buildText (r : Record) : String :=
  (r.name.getD "") ++ " " ++ (r.description.getD "")

/-- Fuel-driven worker for `batches` (structural recursion on the fuel so
that the function evaluates by `rfl`/`decide`; the fuel never runs out
when initialized with the list length, since each step consumes
`BATCH_SIZE ≥ 1` elements). -/
def batchesAux : Nat → List Record → List (List Record)
  | 0, _ => []
  | _ + 1, [] => []
  | n + 1, x :: xs =>
    (x :: xs).take BATCH_SIZE :: batchesAux n ((x :: xs).drop BATCH_SIZE)

/-- The slicing loop `for i in range(0, total_products, BATCH_SIZE):
batch = products_to_update[i:i + BATCH_SIZE]`: contiguous chunks of
`BATCH_SIZE`, the last one possibly shorter. -/
def batches (l : List Record) : List (List Record) :=
  batchesAux l.length l

/-- Observable actions of one run, in order. -/
inductive Event where
  /-- `print("Successfully connected to MongoDB: ...")` -/
  | connected
  /-- the `except` branch of the connection block -/
  | connectFailed
  /-- `print(f"Found {total_products} products without embeddings to update.")` -/
  | queried (n : Nat)
  /-- `print("No products found without embeddings. Exiting.")` -/
  | printedNoCandidates
  /-- `client.models.embed_content(model=..., contents=texts_to_embed)` -/
  | providerCall (texts : List String)
  /-- `collection.update_one({"_id": product_id}, {"$set": {"embedding": embedding}})` -/
  | updated (pid : Nat) (v : Vec)
  /-- `print(f"Skipping product {product_id} due to embedding generation error ...")` -/
  | skippedRecord (pid : Nat)
  /-- `print(f"An error occurred processing batch {i // BATCH_SIZE}: ... Skipping batch.")` -/
  | batchFailed (idx : Nat)
  /-- `time.sleep(60)` -/
  | slept
  /-- `print(f"Finished. Total products updated: {updated_count}")` -/
  | printedSummary (n : Nat)
  /-- `mongo_client.close()` -/
  | closed
  /-- the uncaught `ValueError("LLM_API_KEY environment variable not set.")` -/
  | configError
deriving DecidableEq, Repr

/-- `collection.update_one({"_id": pid}, {"$set": {"embedding": v}})`:
set the `embedding` field of the first document whose `_id` matches;
no match means no change. -/
def updateOne (st : Store) (pid : Nat) (v : Vec) : Store :=
  match st with
  | [] => []
  | r :: rs =>
    if r.id = pid then { r with embedding := some (some v) } :: rs
    else r :: updateOne rs pid v

/-- Result of processing (part of) a run: the mutated collection, the
running `updated_count`, the emitted events, and for a single batch
whether indexing `embeddings_data[j]` overran the response
(the source's `IndexError`). -/
structure BatchOut where
  store : Store
  count : Nat
  events : List Event
  indexError : Bool
deriving Repr

/-- The loop `for j, product_id in enumerate(product_ids)`: position `j`
reads `embeddings_data[j]`; a non-empty vector is written back (first
`_id` match) and counted, an empty one is skipped; running out of
response vectors raises `IndexError`, which aborts the rest of the batch
but keeps the updates already made. -/
def applyVectors : List Nat → List Vec → Store → Nat → BatchOut
  | [], _, st, c => ⟨st, c, [], false⟩
  | _ :: _, [], st, c => ⟨st, c, [], true⟩
  | p :: ps, v :: vt, st, c =>
    if v.isEmpty then
      let o := applyVectors ps vt st c
      ⟨o.store, o.count, .skippedRecord p :: o.events, o.indexError⟩
    else
      let o := applyVectors ps vt (updateOne st p v) (c + 1)
      ⟨o.store, o.count, .updated p v :: o.events, o.indexError⟩

/-- One iteration of the batch loop: build texts and ids, `continue` on an
empty batch (skipping the sleep), otherwise call the provider inside
`try`; an exception (from the call, or the `IndexError` while mapping
results) logs the batch as failed and falls through; then sleep. -/
def procBatch (idx : Nat) (batch : List Record) (resp : Except Unit (List Vec))
    (st : Store) (cnt : Nat) : BatchOut :=
  let texts := batch.map buildText
  let pids := batch.map (fun r => r.id)
  if texts.isEmpty then ⟨st, cnt, [], false⟩
  else
    match resp with
    | .error _ => ⟨st, cnt, [.providerCall texts, .batchFailed idx, .slept], false⟩
    | .ok vs =>
      let o := applyVectors pids vs st cnt
      ⟨o.store, o.count,
        .providerCall texts :: o.events
          ++ (if o.indexError then [.batchFailed idx] else []) ++ [.slept],
        o.indexError⟩

/-- The whole batch loop, threading the collection and `updated_count`
through the batches; batch `k` gets the provider's response
`provider k` (`i // BATCH_SIZE` in the source is the batch ordinal). -/
def runBatches (provider : Nat → Except Unit (List Vec)) :
    List (List Record) → Nat → Store → Nat → BatchOut
  | [], _, st, cnt => ⟨st, cnt, [], false⟩
  | b :: bs, idx, st, cnt =>
    let o1 := procBatch idx b (provider idx) st cnt
    let o2 := runBatches provider bs (idx + 1) o1.store o1.count
    ⟨o2.store, o2.count, o1.events ++ o2.events, false⟩

/-- Outcome of one process run: final collection, event trace, exit code. -/
structure ProgOut where
  store : Store
  events : List Event
  exitCode : Nat
deriving Repr

/-- `main()`: connect (failure closes and exits 1), query and materialize
the candidates, exit 0 early when there are none (closing first),
otherwise run the batch loop, print the summary and close. -/
def runMain (connectOk : Bool) (st : Store)
    (provider : Nat → Except Unit (List Vec)) : ProgOut :=
  if connectOk then
    let cands := selection st
    if cands.isEmpty then
      ⟨st, [.connected, .queried cands.length, .printedNoCandidates, .closed], 0⟩
    else
      let o := runBatches provider (batches cands) 0 st 0
      ⟨o.store,
        .connected :: .queried cands.length :: o.events
          ++ [.printedSummary o.count, .closed], 0⟩
  else
    ⟨st, [.connectFailed, .closed], 1⟩

/-- The whole script: module load checks `LLM_API_KEY` (`os.getenv` gives
`none` when absent); `if not GEMINI_API_KEY` raises `ValueError` — an
absent or empty key terminates the process (exit code 1) before `main()`
runs. Otherwise `main()` runs. -/
def runProgram (apiKey : Option String) (connectOk : Bool) (st : Store)
    (provider : Nat → Except Unit (List Vec)) : ProgOut :=
  if (apiKey.getD "").isEmpty then ⟨st, [.configError], 1⟩
  else runMain connectOk st provider

/-- Look a document up by `_id` (first match, as Mongo's unique `_id`
makes unambiguous). -/
def findRec (st : Store) (pid : Nat) : Option Record :=
  st.find? (fun r => r.id == pid)

/-- A document with `_id = pid` exists and is not a candidate (its
`embedding` is a non-empty vector): it will not be selected again. -/
def notCandAt (st : Store) (pid : Nat) : Prop :=
  ∃ r, findRec st pid = some r ∧ isCandidate r = false

/-! Spec-side counting functions, used to state what the final summary
should be: the number of batch positions whose returned vector was
non-empty. -/

/-- Number of positions of a batch holding a non-empty returned vector
(none when the call raised). -/
def batchGain (pids : List Nat) (resp : Except Unit (List Vec)) : Nat :=
  match resp with
  | .error _ => 0
  | .ok vs => (pids.zip vs).countP (fun q => !q.2.isEmpty)

/-- Total of `batchGain` over all batches. -/
def totalGain (provider : Nat → Except Unit (List Vec)) :
    List (List Record) → Nat → Nat
  | [], _ => 0
  | b :: bs, idx =>
    batchGain (b.map (fun r => r.id)) (provider idx) + totalGain provider bs (idx + 1)

/-- `true` exactly on provider-call events. -/
def isProviderCallEv : Event → Bool
  | .providerCall _ => true
  | _ => false

/-- `true` exactly on sleep events. -/
def isSleptEv : Event → Bool
  | .slept => true
  | _ => false

/-- `true` exactly on store-query events. -/
def isQueriedEv : Event → Bool
  | .queried _ => true
  | _ => false

/-- `true` exactly on record-update events. -/
def isUpdatedEv : Event → Bool
  | .updated _ _ => true
  | _ => false

/-! Concrete inputs used by counterexamples and witnesses. -/

/-- A candidate document with only an `_id`. -/
def mkCand (i : Nat) : Record := ⟨i, none, none, none⟩

/-- Two candidate documents; one batch of two texts. -/
def cexStore : Store := [⟨1, some "a", none, none⟩, ⟨2, some "b", none, none⟩]

/-- A provider whose response always holds a single vector — malformed
for any batch of two or more texts. -/
def cexProvider : Nat → Except Unit (List Vec) := fun _ => Except.ok [[5]]

/-- A provider whose call always raises. -/
def errProvider : Nat → Except Unit (List Vec) := fun _ => Except.error ()

/-- A provider answering every batch with ten non-empty vectors. -/
def okProvider : Nat → Except Unit (List Vec) :=
  fun _ => Except.ok (List.replicate 10 [1])

/-- 1001 candidate documents: one more than the selection cap. -/
def bigStore : Store := (List.range 1001).map mkCand

/-- 25 candidate documents: the end-to-end scenario of the spec. -/
def store25 : Store := (List.range 25).map mkCand

/-- 12 candidate documents: batches of sizes 10 and 2. -/
def store12 : Store := (List.range 12).map mkCand

/-- A store whose single document already has a non-empty embedding. -/
def noCandStore : Store := [⟨5, some "x", none, some (some [3])⟩]

/-- A two-record batch whose provider response has one empty and one
non-empty vector. -/
def w6batch : List Record := [⟨1, some "a", none, none⟩, ⟨2, some "b", none, none⟩]

/-- Response vectors for `w6batch`: empty at position 0, non-empty at 1. -/
def w6vs : List Vec := [[], [7]]

/-- A document that is not a candidate (non-empty embedding). -/
def ncRec : Record := ⟨1, none, none, some (some [2])⟩

/-- A store holding one candidate and one non-candidate. -/
def wst3 : Store := [mkCand 0, ncRec]

/-! ### Lemmas about `updateOne` and `findRec` -/

theorem updateOne_find_ne (st : Store) (p q : Nat) (v : Vec) (hqp : q ≠ p) :
    findRec (updateOne st p v) q = findRec st q := by
  induction st with
  | nil => rfl
  | cons r rs ih =>
    by_cases hr : r.id = p
    · have hq : ¬((r.id == q) = true) := by
        simp only [beq_iff_eq, hr]
        exact fun h => hqp h.symm
      simp only [updateOne, if_pos hr, findRec]
      rw [@List.find?_cons_of_neg _ (fun x => x.id == q)
          { r with embedding := some (some v) } rs hq,
        @List.find?_cons_of_neg _ (fun x => x.id == q) r rs hq]
    · simp only [updateOne, if_neg hr, findRec]
      by_cases hq : (r.id == q) = true
      · rw [@List.find?_cons_of_pos _ (fun x => x.id == q) r (updateOne rs p v) hq,
          @List.find?_cons_of_pos _ (fun x => x.id == q) r rs hq]
      · rw [@List.find?_cons_of_neg _ (fun x => x.id == q) r (updateOne rs p v) hq,
          @List.find?_cons_of_neg _ (fun x => x.id == q) r rs hq]
        exact ih

theorem updateOne_find_eq (st : Store) (p : Nat) (v : Vec) :
    findRec (updateOne st p v) p
      = (findRec st p).map (fun r => { r with embedding := some (some v) }) := by
  induction st with
  | nil => rfl
  | cons r rs ih =>
    by_cases hr : r.id = p
    · have hq : (r.id == p) = true := by simp [hr]
      simp only [updateOne, if_pos hr, findRec]
      rw [@List.find?_cons_of_pos _ (fun x => x.id == p)
          { r with embedding := some (some v) } rs hq,
        @List.find?_cons_of_pos _ (fun x => x.id == p) r rs hq]
      rfl
    · have hq : ¬((r.id == p) = true) := by simp [hr]
      simp only [updateOne, if_neg hr, findRec]
      rw [@List.find?_cons_of_neg _ (fun x => x.id == p) r (updateOne rs p v) hq,
        @List.find?_cons_of_neg _ (fun x => x.id == p) r rs hq]
      exact ih

theorem updateOne_find_isSome (st : Store) (p q : Nat) (v : Vec)
    (h : (findRec st q).isSome = true) :
    (findRec (updateOne st p v) q).isSome = true := by
  by_cases hqp : q = p
  · subst hqp
    rw [updateOne_find_eq]
    obtain ⟨r, hr⟩ := Option.isSome_iff_exists.mp h
    rw [hr]
    rfl
  · rwa [updateOne_find_ne st p q v hqp]

theorem updateOne_notCand_self (st : Store) (p : Nat) (v : Vec)
    (hsome : (findRec st p).isSome = true) (hv : v.isEmpty = false) :
    notCandAt (updateOne st p v) p := by
  rw [notCandAt, updateOne_find_eq]
  obtain ⟨r, hr⟩ := Option.isSome_iff_exists.mp hsome
  rw [hr]
  exact ⟨_, rfl, by simp [isCandidate, hv]⟩

theorem updateOne_notCand_pres (st : Store) (p pid : Nat) (v : Vec)
    (hv : v.isEmpty = false) (h : notCandAt st pid) :
    notCandAt (updateOne st p v) pid := by
  by_cases hqp : pid = p
  · subst hqp
    obtain ⟨r, hr, _⟩ := h
    exact updateOne_notCand_self st pid v (by rw [hr]; rfl) hv
  · obtain ⟨r, hr, hc⟩ := h
    exact ⟨r, by rwa [updateOne_find_ne st p pid v hqp], hc⟩

/-! ### Lemmas about `applyVectors` -/

theorem applyVectors_count (ps : List Nat) (vs : List Vec) (st : Store) (c : Nat) :
    (applyVectors ps vs st c).count = c + (ps.zip vs).countP (fun q => !q.2.isEmpty) := by
  induction ps generalizing vs st c with
  | nil => simp [applyVectors]
  | cons p ps ih =>
    cases vs with
    | nil => simp [applyVectors]
    | cons v vt =>
      by_cases hv : v.isEmpty
      · simp [applyVectors, hv, ih, List.zip_cons_cons, List.countP_cons]
      · simp only [applyVectors, hv, Bool.false_eq_true, if_neg, ite_false, ih,
          List.zip_cons_cons, List.countP_cons]
        simp [hv]
        omega

theorem applyVectors_find_notMem (ps : List Nat) (vs : List Vec) (st : Store)
    (c : Nat) (q : Nat) (hq : q ∉ ps) :
    findRec (applyVectors ps vs st c).store q = findRec st q := by
  induction ps generalizing vs st c with
  | nil => simp [applyVectors]
  | cons p ps ih =>
    cases vs with
    | nil => simp [applyVectors]
    | cons v vt =>
      have hqp : q ≠ p := fun h => hq (h ▸ List.mem_cons_self p ps)
      have hq' : q ∉ ps := fun h => hq (List.mem_cons_of_mem _ h)
      by_cases hv : v.isEmpty
      · simp [applyVectors, hv, ih _ _ _ hq']
      · simp only [applyVectors, hv, Bool.false_eq_true, ite_false]
        rw [ih _ _ _ hq', updateOne_find_ne st p q v hqp]

theorem applyVectors_find_isSome (ps : List Nat) (vs : List Vec) (st : Store)
    (c : Nat) (q : Nat) (h : (findRec st q).isSome = true) :
    (findRec (applyVectors ps vs st c).store q).isSome = true := by
  induction ps generalizing vs st c with
  | nil => simpa [applyVectors]
  | cons p ps ih =>
    cases vs with
    | nil => simpa [applyVectors]
    | cons v vt =>
      by_cases hv : v.isEmpty
      · simp only [applyVectors, hv, ite_true]
        exact ih vt st c h
      · simp only [applyVectors, hv, Bool.false_eq_true, ite_false]
        exact ih vt _ _ (updateOne_find_isSome st p q v h)

theorem applyVectors_events_mem (ps : List Nat) (vs : List Vec) (st : Store)
    (c : Nat) :
    ∀ e ∈ (applyVectors ps vs st c).events,
      (∃ p, e = Event.skippedRecord p) ∨ ∃ p v, e = Event.updated p v := by
  induction ps generalizing vs st c with
  | nil => simp [applyVectors]
  | cons p ps ih =>
    cases vs with
    | nil => simp [applyVectors]
    | cons v vt =>
      intro e he
      by_cases hv : v.isEmpty
      · simp only [applyVectors, hv, ite_true, List.mem_cons] at he
        rcases he with rfl | he
        · exact Or.inl ⟨p, rfl⟩
        · exact ih vt st c e he
      · simp only [applyVectors, hv, Bool.false_eq_true, ite_false,
          List.mem_cons] at he
        rcases he with rfl | he
        · exact Or.inr ⟨p, v, rfl⟩
        · exact ih vt _ _ e he

theorem applyVectors_updated_nonempty (ps : List Nat) (vs : List Vec) (st : Store)
    (c : Nat) (p : Nat) (v : Vec)
    (h : Event.updated p v ∈ (applyVectors ps vs st c).events) :
    v.isEmpty = false := by
  induction ps generalizing vs st c with
  | nil => simp [applyVectors] at h
  | cons p' ps ih =>
    cases vs with
    | nil => simp [applyVectors] at h
    | cons v' vt =>
      by_cases hv : v'.isEmpty
      · simp only [applyVectors, hv, ite_true, List.mem_cons] at h
        rcases h with h | h
        · exact absurd h (by simp)
        · exact ih vt st c h
      · simp only [applyVectors, hv, Bool.false_eq_true, ite_false,
          List.mem_cons] at h
        rcases h with h | h
        · injection h with h1 h2
          subst h2
          simpa using hv
        · exact ih vt _ _ h

theorem applyVectors_indexError (ps : List Nat) (vs : List Vec) (st : Store)
    (c : Nat) (h : vs.length < ps.length) :
    (applyVectors ps vs st c).indexError = true := by
  induction ps generalizing vs st c with
  | nil => simp at h
  | cons p ps ih =>
    cases vs with
    | nil => rfl
    | cons v vt =>
      have h' : vt.length < ps.length := by simpa using h
      by_cases hv : v.isEmpty
      · simp only [applyVectors, hv, ite_true]
        exact ih vt st c h'
      · simp only [applyVectors, hv, Bool.false_eq_true, ite_false]
        exact ih vt _ _ h'

theorem applyVectors_find_pos (ps : List Nat) (vs : List Vec) (st : Store) (c : Nat)
    (j : Nat) (hj : j < ps.length) (hv : j < vs.length) (hnd : ps.Nodup) :
    (vs[j].isEmpty = true →
      findRec (applyVectors ps vs st c).store ps[j] = findRec st ps[j] ∧
      Event.skippedRecord ps[j] ∈ (applyVectors ps vs st c).events) ∧
    (vs[j].isEmpty = false →
      findRec (applyVectors ps vs st c).store ps[j]
        = (findRec st ps[j]).map (fun x => { x with embedding := some (some vs[j]) }) ∧
      Event.updated ps[j] vs[j] ∈ (applyVectors ps vs st c).events) := by
  induction ps generalizing vs st c j with
  | nil => exact absurd hj (Nat.not_lt_zero j)
  | cons p ps ih =>
    cases vs with
    | nil => exact absurd hv (Nat.not_lt_zero j)
    | cons v vt =>
      have hpnotin : p ∉ ps := (List.nodup_cons.mp hnd).1
      have hndt : ps.Nodup := (List.nodup_cons.mp hnd).2
      cases j with
      | zero =>
        simp only [List.getElem_cons_zero]
        constructor
        · intro hve
          simp only [applyVectors, hve, ite_true]
          exact ⟨applyVectors_find_notMem ps vt st c p hpnotin,
            List.mem_cons_self _ _⟩
        · intro hve
          simp only [applyVectors, hve, Bool.false_eq_true, ite_false]
          refine ⟨?_, List.mem_cons_self _ _⟩
          rw [applyVectors_find_notMem ps vt _ _ p hpnotin, updateOne_find_eq]
      | succ j' =>
        have hj' : j' < ps.length := by simpa using hj
        have hv' : j' < vt.length := by simpa using hv
        have hne : ps[j'] ≠ p := fun h => hpnotin (h ▸ List.getElem_mem hj')
        simp only [List.getElem_cons_succ]
        by_cases hve : v.isEmpty
        · simp only [applyVectors, hve, ite_true]
          exact ⟨fun h => ⟨((ih vt st c j' hj' hv' hndt).1 h).1,
              List.mem_cons_of_mem _ ((ih vt st c j' hj' hv' hndt).1 h).2⟩,
            fun h => ⟨((ih vt st c j' hj' hv' hndt).2 h).1,
              List.mem_cons_of_mem _ ((ih vt st c j' hj' hv' hndt).2 h).2⟩⟩
        · simp only [applyVectors, hve, Bool.false_eq_true, ite_false]
          have heq := updateOne_find_ne st p (ps[j']) v hne
          exact ⟨fun h => ⟨((ih vt _ _ j' hj' hv' hndt).1 h).1.trans heq,
              List.mem_cons_of_mem _ ((ih vt _ _ j' hj' hv' hndt).1 h).2⟩,
            fun h => ⟨((ih vt _ _ j' hj' hv' hndt).2 h).1.trans (by rw [heq]),
              List.mem_cons_of_mem _ ((ih vt _ _ j' hj' hv' hndt).2 h).2⟩⟩

theorem applyVectors_notCand (ps : List Nat) (vs : List Vec) (st : Store) (c : Nat)
    (pid : Nat) (hsome : ∀ p ∈ ps, (findRec st p).isSome = true)
    (h : notCandAt st pid ∨
      ∃ v, Event.updated pid v ∈ (applyVectors ps vs st c).events) :
    notCandAt (applyVectors ps vs st c).store pid := by
  induction ps generalizing vs st c with
  | nil =>
    simp only [applyVectors] at h ⊢
    rcases h with h | ⟨v, hv⟩
    · exact h
    · simp at hv
  | cons p ps ih =>
    cases vs with
    | nil =>
      simp only [applyVectors] at h ⊢
      rcases h with h | ⟨v, hv⟩
      · exact h
      · simp at hv
    | cons v vt =>
      have hsome' : ∀ q ∈ ps, (findRec st q).isSome = true :=
        fun q hq => hsome q (List.mem_cons_of_mem _ hq)
      by_cases hve : v.isEmpty
      · simp only [applyVectors, hve, ite_true] at h ⊢
        refine ih vt st c hsome' ?_
        rcases h with h | ⟨w, hw⟩
        · exact Or.inl h
        · simp only [List.mem_cons] at hw
          rcases hw with hw | hw
          · exact absurd hw (by simp)
          · exact Or.inr ⟨w, hw⟩
      · simp only [applyVectors, hve, Bool.false_eq_true, ite_false] at h ⊢
        have hsome'' : ∀ q ∈ ps, (findRec (updateOne st p v) q).isSome = true :=
          fun q hq => updateOne_find_isSome st p q v (hsome' q hq)
        refine ih vt (updateOne st p v) (c + 1) hsome'' ?_
        rcases h with h | ⟨w, hw⟩
        · exact Or.inl (updateOne_notCand_pres st p pid v (by simpa using hve) h)
        · simp only [List.mem_cons] at hw
          rcases hw with hw | hw
          · injection hw with h1 h2
            subst h1
            exact Or.inl (updateOne_notCand_self st pid v
              (hsome pid (List.mem_cons_self _ _)) (by simpa using hve))
          · exact Or.inr ⟨w, hw⟩

/-! ### Lemmas about `procBatch` -/

theorem procBatch_count (idx : Nat) (b : List Record) (resp : Except Unit (List Vec))
    (st : Store) (cnt : Nat) :
    (procBatch idx b resp st cnt).count
      = cnt + batchGain (b.map (fun r => r.id)) resp := by
  cases b with
  | nil => cases resp <;> simp [procBatch, batchGain]
  | cons r rs =>
    cases resp with
    | error u => simp [procBatch, batchGain]
    | ok vs =>
      simp [procBatch, batchGain, applyVectors_count]

theorem procBatch_store_error (idx : Nat) (b : List Record) (u : Unit)
    (st : Store) (cnt : Nat) :
    (procBatch idx b (Except.error u) st cnt).store = st := by
  cases b <;> simp [procBatch]

theorem procBatch_count_error (idx : Nat) (b : List Record) (u : Unit)
    (st : Store) (cnt : Nat) :
    (procBatch idx b (Except.error u) st cnt).count = cnt := by
  cases b <;> simp [procBatch]

theorem procBatch_store_ok (idx : Nat) (b : List Record) (vs : List Vec)
    (st : Store) (cnt : Nat) :
    (procBatch idx b (Except.ok vs) st cnt).store
      = (applyVectors (b.map (fun r => r.id)) vs st cnt).store := by
  cases b with
  | nil => simp [procBatch, applyVectors]
  | cons r rs => simp [procBatch]

theorem procBatch_count_ok (idx : Nat) (b : List Record) (vs : List Vec)
    (st : Store) (cnt : Nat) :
    (procBatch idx b (Except.ok vs) st cnt).count
      = (applyVectors (b.map (fun r => r.id)) vs st cnt).count := by
  cases b with
  | nil => simp [procBatch, applyVectors]
  | cons r rs => simp [procBatch]

theorem applyVectors_countP_zero (f : Event → Bool)
    (hf1 : ∀ p, f (Event.skippedRecord p) = false)
    (hf2 : ∀ p v, f (Event.updated p v) = false)
    (ps : List Nat) (vs : List Vec) (st : Store) (c : Nat) :
    (applyVectors ps vs st c).events.countP f = 0 := by
  rw [List.countP_eq_zero]
  intro e he
  rcases applyVectors_events_mem ps vs st c e he with ⟨p, rfl⟩ | ⟨p, v, rfl⟩
  · simp [hf1]
  · simp [hf2]

theorem procBatch_countP_pc (idx : Nat) (b : List Record)
    (resp : Except Unit (List Vec)) (st : Store) (cnt : Nat) :
    (procBatch idx b resp st cnt).events.countP isProviderCallEv
      = if b.isEmpty then 0 else 1 := by
  cases b with
  | nil => cases resp <;> simp [procBatch]
  | cons r rs =>
    cases resp with
    | error u => simp [procBatch, List.countP_cons, isProviderCallEv]
    | ok vs =>
      cases hie : (applyVectors (r.id :: rs.map (fun x => x.id)) vs st cnt).indexError with
      | true =>
        simp [procBatch, List.countP_cons, List.countP_append, hie,
          applyVectors_countP_zero isProviderCallEv (fun _ => rfl) (fun _ _ => rfl),
          isProviderCallEv]
      | false =>
        simp [procBatch, List.countP_cons, List.countP_append, hie,
          applyVectors_countP_zero isProviderCallEv (fun _ => rfl) (fun _ _ => rfl),
          isProviderCallEv]

theorem procBatch_countP_slept (idx : Nat) (b : List Record)
    (resp : Except Unit (List Vec)) (st : Store) (cnt : Nat) :
    (procBatch idx b resp st cnt).events.countP isSleptEv
      = if b.isEmpty then 0 else 1 := by
  cases b with
  | nil => cases resp <;> simp [procBatch]
  | cons r rs =>
    cases resp with
    | error u => simp [procBatch, List.countP_cons, isSleptEv]
    | ok vs =>
      cases hie : (applyVectors (r.id :: rs.map (fun x => x.id)) vs st cnt).indexError with
      | true =>
        simp [procBatch, List.countP_cons, List.countP_append, hie,
          applyVectors_countP_zero isSleptEv (fun _ => rfl) (fun _ _ => rfl),
          isSleptEv]
      | false =>
        simp [procBatch, List.countP_cons, List.countP_append, hie,
          applyVectors_countP_zero isSleptEv (fun _ => rfl) (fun _ _ => rfl),
          isSleptEv]

theorem procBatch_updated_mem (idx : Nat) (b : List Record)
    (resp : Except Unit (List Vec)) (st : Store) (cnt : Nat) (pid : Nat) (v : Vec)
    (h : Event.updated pid v ∈ (procBatch idx b resp st cnt).events) :
    ∃ vs, resp = Except.ok vs ∧
      Event.updated pid v ∈ (applyVectors (b.map (fun r => r.id)) vs st cnt).events := by
  cases b with
  | nil => cases resp <;> simp [procBatch] at h
  | cons r rs =>
    cases resp with
    | error u => simp [procBatch] at h
    | ok vs =>
      refine ⟨vs, rfl, ?_⟩
      by_cases hmem : Event.updated pid v
          ∈ (applyVectors (r.id :: List.map (fun x => x.id) rs) vs st cnt).events
      · exact hmem
      · exfalso
        cases hie : (applyVectors (r.id :: List.map (fun x => x.id) rs) vs st cnt).indexError <;>
          simp [procBatch, hie, hmem] at h

theorem procBatch_find_isSome (idx : Nat) (b : List Record)
    (resp : Except Unit (List Vec)) (st : Store) (cnt : Nat) (q : Nat)
    (h : (findRec st q).isSome = true) :
    (findRec (procBatch idx b resp st cnt).store q).isSome = true := by
  cases resp with
  | error u => rwa [procBatch_store_error]
  | ok vs =>
    rw [procBatch_store_ok]
    exact applyVectors_find_isSome _ _ _ _ _ h

theorem procBatch_notCand (idx : Nat) (b : List Record)
    (resp : Except Unit (List Vec)) (st : Store) (cnt : Nat) (pid : Nat)
    (hsome : ∀ r ∈ b, (findRec st r.id).isSome = true)
    (h : notCandAt st pid ∨
      ∃ v, Event.updated pid v ∈ (procBatch idx b resp st cnt).events) :
    notCandAt (procBatch idx b resp st cnt).store pid := by
  cases resp with
  | error u =>
    rw [procBatch_store_error]
    rcases h with h | ⟨v, hv⟩
    · exact h
    · obtain ⟨vs, hvs, _⟩ := procBatch_updated_mem idx b _ st cnt pid v hv
      cases hvs
  | ok vs =>
    rw [procBatch_store_ok]
    refine applyVectors_notCand _ _ _ _ _ ?_ ?_
    · intro p hp
      obtain ⟨r, hr, rfl⟩ := List.mem_map.mp hp
      exact hsome r hr
    · rcases h with h | ⟨v, hv⟩
      · exact Or.inl h
      · obtain ⟨vs', hvs', hmem⟩ := procBatch_updated_mem idx b _ st cnt pid v hv
        injection hvs' with hvs'
        subst hvs'
        exact Or.inr ⟨v, hmem⟩

/-! ### Lemmas about `runBatches` -/

theorem runBatches_count (provider : Nat → Except Unit (List Vec))
    (bs : List (List Record)) (idx : Nat) (st : Store) (cnt : Nat) :
    (runBatches provider bs idx st cnt).count = cnt + totalGain provider bs idx := by
  induction bs generalizing idx st cnt with
  | nil => simp [runBatches, totalGain]
  | cons b bs ih =>
    simp only [runBatches, totalGain, ih, procBatch_count]
    omega

theorem runBatches_countP (f : Event → Bool)
    (hf : ∀ idx b resp st cnt,
      (procBatch idx b resp st cnt).events.countP f = if b.isEmpty then 0 else 1)
    (provider : Nat → Except Unit (List Vec)) (bs : List (List Record))
    (idx : Nat) (st : Store) (cnt : Nat) :
    (runBatches provider bs idx st cnt).events.countP f
      = bs.countP (fun b => !b.isEmpty) := by
  induction bs generalizing idx st cnt with
  | nil => simp [runBatches]
  | cons b bs ih =>
    simp only [runBatches, List.countP_append, List.countP_cons, hf, ih]
    cases hb : b.isEmpty
    · simp [hb]
      omega
    · simp [hb]

theorem runBatches_updated_nonempty (provider : Nat → Except Unit (List Vec))
    (bs : List (List Record)) (idx : Nat) (st : Store) (cnt : Nat)
    (pid : Nat) (v : Vec)
    (h : Event.updated pid v ∈ (runBatches provider bs idx st cnt).events) :
    v.isEmpty = false := by
  induction bs generalizing idx st cnt with
  | nil => simp [runBatches] at h
  | cons b bs ih =>
    simp only [runBatches, List.mem_append] at h
    rcases h with h | h
    · obtain ⟨vs, _, hmem⟩ := procBatch_updated_mem idx b _ st cnt pid v h
      exact applyVectors_updated_nonempty _ _ _ _ _ _ hmem
    · exact ih _ _ _ h

theorem runBatches_find_isSome (provider : Nat → Except Unit (List Vec))
    (bs : List (List Record)) (idx : Nat) (st : Store) (cnt : Nat) (q : Nat)
    (h : (findRec st q).isSome = true) :
    (findRec (runBatches provider bs idx st cnt).store q).isSome = true := by
  induction bs generalizing idx st cnt with
  | nil => simpa [runBatches]
  | cons b bs ih =>
    simp only [runBatches]
    exact ih _ _ _ (procBatch_find_isSome idx b _ st cnt q h)

theorem runBatches_notCand (provider : Nat → Except Unit (List Vec))
    (bs : List (List Record)) (idx : Nat) (st : Store) (cnt : Nat) (pid : Nat)
    (hsome : ∀ b ∈ bs, ∀ r ∈ b, (findRec st r.id).isSome = true)
    (h : notCandAt st pid ∨
      ∃ v, Event.updated pid v ∈ (runBatches provider bs idx st cnt).events) :
    notCandAt (runBatches provider bs idx st cnt).store pid := by
  induction bs generalizing idx st cnt with
  | nil =>
    simp only [runBatches] at h ⊢
    rcases h with h | ⟨v, hv⟩
    · exact h
    · simp at hv
  | cons b bs ih =>
    have hsome1 : ∀ r ∈ b, (findRec st r.id).isSome = true :=
      hsome b (List.mem_cons_self _ _)
    have hsome2 : ∀ b' ∈ bs, ∀ r ∈ b',
        (findRec (procBatch idx b (provider idx) st cnt).store r.id).isSome = true :=
      fun b' hb' r hr =>
        procBatch_find_isSome idx b _ st cnt r.id
          (hsome b' (List.mem_cons_of_mem _ hb') r hr)
    simp only [runBatches] at h ⊢
    rcases h with h | ⟨v, hv⟩
    · exact ih _ _ _ hsome2
        (Or.inl (procBatch_notCand idx b _ st cnt pid hsome1 (Or.inl h)))
    · simp only [List.mem_append] at hv
      rcases hv with hv | hv
      · exact ih _ _ _ hsome2
          (Or.inl (procBatch_notCand idx b _ st cnt pid hsome1 (Or.inr ⟨v, hv⟩)))
      · exact ih _ _ _ hsome2 (Or.inr ⟨v, hv⟩)

/-! ### Lemmas about `batches` -/

theorem batchesAux_nil (f : Nat) : batchesAux f [] = [] := by
  cases f <;> rfl

theorem batchesAux_flatten (f : Nat) :
    ∀ l : List Record, l.length ≤ f → (batchesAux f l).flatten = l := by
  induction f with
  | zero =>
    intro l h
    rw [List.length_eq_zero.mp (Nat.le_zero.mp h)]
    rfl
  | succ f ih =>
    intro l h
    cases l with
    | nil => rfl
    | cons x xs =>
      simp only [batchesAux, List.flatten_cons]
      have hlen : ((x :: xs).drop BATCH_SIZE).length ≤ f := by
        rw [List.length_drop]
        simp only [List.length_cons] at h ⊢
        simp only [BATCH_SIZE]
        omega
      rw [ih _ hlen]
      exact List.take_append_drop BATCH_SIZE (x :: xs)

theorem batches_flatten (l : List Record) : (batches l).flatten = l :=
  batchesAux_flatten l.length l le_rfl

theorem batchesAux_ne_nil (f : Nat) (l : List Record) (hl : l ≠ [])
    (hf : l.length ≤ f) : batchesAux f l ≠ [] := by
  cases l with
  | nil => exact absurd rfl hl
  | cons x xs =>
    cases f with
    | zero => simp at hf
    | succ f => simp [batchesAux]

theorem batches_eq_nil_iff (l : List Record) : batches l = [] ↔ l = [] := by
  constructor
  · intro h
    by_contra hl
    exact batchesAux_ne_nil l.length l hl le_rfl h
  · intro h
    subst h
    rfl

theorem batchesAux_sizes (f : Nat) :
    ∀ (l : List Record), l.length ≤ f →
      ∀ (i : Nat) (h : i + 1 < (batchesAux f l).length),
        (batchesAux f l)[i].length = BATCH_SIZE := by
  induction f with
  | zero =>
    intro l hl i h
    simp [batchesAux] at h
  | succ f ih =>
    intro l hl i h
    cases l with
    | nil => simp [batchesAux] at h
    | cons x xs =>
      cases i with
      | zero =>
        simp only [batchesAux, List.length_cons] at h ⊢
        have htail : batchesAux f ((x :: xs).drop BATCH_SIZE) ≠ [] := by
          intro hnil
          rw [hnil] at h
          simp at h
        have hdrop : (x :: xs).drop BATCH_SIZE ≠ [] := by
          intro hnil
          rw [hnil, batchesAux_nil] at htail
          exact htail rfl
        have hgt : 0 < (x :: xs).length - BATCH_SIZE := by
          rw [← List.length_drop]
          exact List.length_pos.mpr hdrop
        simp only [List.getElem_cons_zero, List.length_take]
        simp only [List.length_cons] at hgt ⊢
        simp only [BATCH_SIZE] at hgt ⊢
        omega
      | succ i =>
        simp only [batchesAux, List.length_cons] at h ⊢
        have h' : i + 1 < (batchesAux f ((x :: xs).drop BATCH_SIZE)).length := by
          omega
        have hlen : ((x :: xs).drop BATCH_SIZE).length ≤ f := by
          rw [List.length_drop]
          simp only [List.length_cons] at hl ⊢
          simp only [BATCH_SIZE]
          omega
        simpa using ih _ hlen i h'

theorem batches_sizes (l : List Record) (i : Nat) (h : i + 1 < (batches l).length) :
    (batches l)[i].length = BATCH_SIZE :=
  batchesAux_sizes l.length l le_rfl i h

theorem batchesAux_getLast (f : Nat) :
    ∀ l : List Record, l.length ≤ f → l ≠ [] →
      ∃ lb, (batchesAux f l).getLast? = some lb ∧
        lb.length = if l.length % BATCH_SIZE = 0 then BATCH_SIZE
          else l.length % BATCH_SIZE := by
  induction f with
  | zero =>
    intro l hl hne
    exact absurd (List.length_eq_zero.mp (Nat.le_zero.mp hl)) hne
  | succ f ih =>
    intro l hl hne
    cases l with
    | nil => exact absurd rfl hne
    | cons x xs =>
      by_cases hdrop : (x :: xs).drop BATCH_SIZE = []
      · refine ⟨(x :: xs).take BATCH_SIZE, ?_, ?_⟩
        · simp [batchesAux, hdrop, batchesAux_nil]
        · have hle : (x :: xs).length - BATCH_SIZE = 0 := by
            rw [← List.length_drop, hdrop]
            rfl
          rw [List.length_take, Nat.min_def]
          simp only [List.length_cons] at hle ⊢
          simp only [BATCH_SIZE] at hle ⊢
          split_ifs <;> omega
      · have hlen : ((x :: xs).drop BATCH_SIZE).length ≤ f := by
          rw [List.length_drop]
          simp only [List.length_cons] at hl ⊢
          simp only [BATCH_SIZE]
          omega
        obtain ⟨lb, hlast, hlb⟩ := ih _ hlen hdrop
        obtain ⟨y, ys, hys⟩ :=
          List.exists_cons_of_ne_nil (batchesAux_ne_nil f _ hdrop hlen)
        refine ⟨lb, ?_, ?_⟩
        · simp only [batchesAux]
          rw [hys, List.getLast?_cons_cons, ← hys, hlast]
        · have hgt : 0 < (x :: xs).length - BATCH_SIZE := by
            rw [← List.length_drop]
            exact List.length_pos.mpr hdrop
          rw [List.length_drop] at hlb
          have hmod : ((x :: xs).length - BATCH_SIZE) % BATCH_SIZE
              = (x :: xs).length % BATCH_SIZE := by
            simp only [BATCH_SIZE] at hgt ⊢
            omega
          rw [hmod] at hlb
          exact hlb

theorem batches_getLast (l : List Record) (hne : l ≠ []) :
    ∃ lb, (batches l).getLast? = some lb ∧
      lb.length = if l.length % BATCH_SIZE = 0 then BATCH_SIZE
        else l.length % BATCH_SIZE :=
  batchesAux_getLast l.length l le_rfl hne

theorem batchesAux_congr (f1 : Nat) :
    ∀ (f2 : Nat) (l : List Record), l.length ≤ f1 → l.length ≤ f2 →
      batchesAux f1 l = batchesAux f2 l := by
  induction f1 with
  | zero =>
    intro f2 l h1 _
    rw [List.length_eq_zero.mp (Nat.le_zero.mp h1), batchesAux_nil, batchesAux_nil]
  | succ f ih =>
    intro f2 l h1 h2
    cases l with
    | nil => rw [batchesAux_nil, batchesAux_nil]
    | cons x xs =>
      cases f2 with
      | zero => simp at h2
      | succ f2 =>
        simp only [batchesAux]
        congr 1
        apply ih
        · rw [List.length_drop]
          simp only [List.length_cons] at h1 ⊢
          simp only [BATCH_SIZE]
          omega
        · rw [List.length_drop]
          simp only [List.length_cons] at h2 ⊢
          simp only [BATCH_SIZE]
          omega

theorem batches_eq_cons (l : List Record) (h : l ≠ []) :
    batches l = l.take BATCH_SIZE :: batches (l.drop BATCH_SIZE) := by
  obtain ⟨x, xs, rfl⟩ := List.exists_cons_of_ne_nil h
  show batchesAux (x :: xs).length (x :: xs) = _
  simp only [List.length_cons, batchesAux]
  congr 1
  apply batchesAux_congr
  · rw [List.length_drop]
    simp only [List.length_cons, BATCH_SIZE]
    omega
  · exact le_rfl

theorem batches_of_len25 (l : List Record) (h : l.length = 25) :
    batches l = [l.take BATCH_SIZE, (l.drop BATCH_SIZE).take BATCH_SIZE,
      (l.drop BATCH_SIZE).drop BATCH_SIZE] ∧
    (batches l).map List.length = [10, 10, 5] := by
  have h1 : l ≠ [] := by
    intro hl
    rw [hl] at h
    simp at h
  have hd1 : (l.drop BATCH_SIZE).length = 15 := by
    rw [List.length_drop, h]
    rfl
  have h2 : l.drop BATCH_SIZE ≠ [] := by
    intro hl
    rw [hl] at hd1
    simp at hd1
  have hd2 : ((l.drop BATCH_SIZE).drop BATCH_SIZE).length = 5 := by
    rw [List.length_drop, hd1]
    rfl
  have h3 : (l.drop BATCH_SIZE).drop BATCH_SIZE ≠ [] := by
    intro hl
    rw [hl] at hd2
    simp at hd2
  have hd3 : ((l.drop BATCH_SIZE).drop BATCH_SIZE).drop BATCH_SIZE = [] := by
    rw [← List.length_eq_zero, List.length_drop, hd2]
    rfl
  have heq : batches l = [l.take BATCH_SIZE, (l.drop BATCH_SIZE).take BATCH_SIZE,
      (l.drop BATCH_SIZE).drop BATCH_SIZE] := by
    have ht3 : ((l.drop BATCH_SIZE).drop BATCH_SIZE).take BATCH_SIZE
        = (l.drop BATCH_SIZE).drop BATCH_SIZE :=
      List.take_of_length_le (by rw [hd2]; simp [BATCH_SIZE])
    rw [batches_eq_cons l h1, batches_eq_cons _ h2, batches_eq_cons _ h3, hd3, ht3]
    rfl
  refine ⟨heq, ?_⟩
  rw [heq]
  simp only [List.map_cons, List.map_nil, List.length_take, hd1, hd2, h]
  norm_num [BATCH_SIZE]

/-! ### Lemmas about `selection` -/

theorem selection_mem (st : Store) (r : Record) (h : r ∈ selection st) :
    r ∈ st ∧ isCandidate r = true := by
  have h1 := List.mem_of_mem_take h
  exact ⟨(List.mem_filter.mp h1).1, (List.mem_filter.mp h1).2⟩

theorem selection_find_isSome (st : Store) (r : Record) (h : r ∈ selection st) :
    (findRec st r.id).isSome = true := by
  rw [findRec, List.find?_isSome]
  exact ⟨r, (selection_mem st r h).1, by simp⟩

/-- The trace of a completed non-empty run ends with the connection
being closed. -/
theorem events_getLast_closed (evs : List Event) (n c : Nat) :
    (Event.connected :: Event.queried n :: evs
      ++ [Event.printedSummary c, Event.closed]).getLast? = some Event.closed := by
  have hsplit : Event.connected :: Event.queried n :: evs
      ++ [Event.printedSummary c, Event.closed]
      = (Event.connected :: Event.queried n :: evs
          ++ [Event.printedSummary c]) ++ [Event.closed] := by
    simp
  rw [hsplit, List.getLast?_concat]

/-! ### The claims -/

/-- C5: the embedding input text is the record's `name` and `description`
joined by a single space, a missing field contributing the empty string;
a record with `name = "A"` and no description yields `"A "`, and a record
with neither field yields `" "`. -/
theorem claim_C5 :
    (∀ r : Record, buildText r = (r.name.getD "") ++ " " ++ (r.description.getD "")) ∧
    buildText ⟨7, some "A", none, none⟩ = "A " ∧
    buildText ⟨7, none, none, none⟩ = " " :=
  ⟨fun _ => rfl, rfl, rfl⟩

/-- C8: with the API key absent, the run terminates with exit code 1
(non-zero) before any network I/O: no provider call, no store query, and
the collection is untouched. -/
theorem claim_C8 (connectOk : Bool) (st : Store)
    (provider : Nat → Except Unit (List Vec)) :
    runProgram none connectOk st provider = ⟨st, [Event.configError], 1⟩ ∧
    (runProgram none connectOk st provider).exitCode = 1 ∧
    (runProgram none connectOk st provider).events.countP isProviderCallEv = 0 ∧
    (runProgram none connectOk st provider).events.countP isQueriedEv = 0 ∧
    (runProgram none connectOk st provider).store = st :=
  ⟨rfl, rfl, rfl, rfl, rfl⟩

/-- C9: with zero candidates, the run exits successfully (code 0,
distinct from the failure exit) after printing the no-candidates
message, with no provider call and no record update, the collection
unchanged, and the connection closed. -/
theorem claim_C9 (st : Store) (provider : Nat → Except Unit (List Vec))
    (h : selection st = []) :
    runMain true st provider
      = ⟨st, [Event.connected, Event.queried 0, Event.printedNoCandidates,
          Event.closed], 0⟩ ∧
    (runMain true st provider).exitCode = 0 ∧
    (runMain true st provider).events.countP isProviderCallEv = 0 ∧
    (runMain true st provider).events.countP isUpdatedEv = 0 ∧
    (runMain true st provider).store = st := by
  have h0 : (selection st).isEmpty = true := by
    rw [h]
    rfl
  have hlen : (selection st).length = 0 := by
    rw [h]
    rfl
  refine ⟨?_, ?_, ?_, ?_, ?_⟩ <;>
    simp [runMain, h0, hlen, isProviderCallEv, isUpdatedEv, List.countP_cons]

/-- C9 witness: a store whose only document already has an embedding. -/
theorem claim_C9_witness :
    runMain true noCandStore okProvider
      = ⟨noCandStore, [Event.connected, Event.queried 0,
          Event.printedNoCandidates, Event.closed], 0⟩ :=
  (claim_C9 noCandStore okProvider (by decide)).1

/-- C4: batching is contiguous, order-preserving and exhaustive: the
concatenation of all batches is the candidate list, every batch but the
last has exactly `BATCH_SIZE` elements, and the last has
`total mod BATCH_SIZE` (or a full `BATCH_SIZE` when the total divides
evenly). -/
theorem claim_C4 (l : List Record) :
    (batches l).flatten = l ∧
    (∀ (i : Nat) (hi : i + 1 < (batches l).length),
      (batches l)[i].length = BATCH_SIZE) ∧
    (l ≠ [] → ∃ lb, (batches l).getLast? = some lb ∧
      lb.length = if l.length % BATCH_SIZE = 0 then BATCH_SIZE
        else l.length % BATCH_SIZE) :=
  ⟨batches_flatten l, fun i hi => batches_sizes l i hi,
    fun hne => batches_getLast l hne⟩

/-- C4 witness: 12 candidates give a full first batch and a final batch
of 12 mod 10 = 2. -/
theorem claim_C4_witness :
    (batches store12).flatten = store12 ∧
    ((batches store12).get ⟨0, by decide⟩).length = BATCH_SIZE ∧
    ∃ lb, (batches store12).getLast? = some lb ∧
      lb.length = if store12.length % BATCH_SIZE = 0 then BATCH_SIZE
        else store12.length % BATCH_SIZE :=
  ⟨(claim_C4 store12).1, (claim_C4 store12).2.1 0 (by decide),
    (claim_C4 store12).2.2 (by decide)⟩

/-- C3 counterexample: with 1001 candidates in the collection, the
candidate at position 1000 is not part of the selection, so "every
candidate is included" fails as stated. -/
theorem claim_C3_counterexample :
    mkCand 1000 ∈ bigStore ∧ isCandidate (mkCand 1000) = true ∧
    mkCand 1000 ∉ selection bigStore := by
  have hfil : bigStore.filter isCandidate = bigStore :=
    List.filter_eq_self.mpr (fun r hr => by
      obtain ⟨i, _, rfl⟩ := List.mem_map.mp hr
      rfl)
  have hsel : selection bigStore = (List.range 1000).map mkCand := by
    rw [selection, hfil, bigStore, ← List.map_take, List.take_range]
    norm_num
  refine ⟨List.mem_map_of_mem mkCand (List.mem_range.mpr (by norm_num)), rfl, ?_⟩
  intro hmem
  rw [hsel] at hmem
  obtain ⟨i, hi, heq⟩ := List.mem_map.mp hmem
  have hid : i = 1000 := congrArg Record.id heq
  rw [hid] at hi
  exact absurd (List.mem_range.mp hi) (by norm_num)

/-- C3 (amended): the selection contains only candidates of the
collection, never more than 1000 records, excludes every record with a
non-empty embedding, and — whenever the collection holds at most 1000
candidates — includes every candidate. -/
theorem claim_C3 (st : Store) :
    (∀ r ∈ selection st, r ∈ st ∧ isCandidate r = true) ∧
    (∀ r : Record, isCandidate r = false → r ∉ selection st) ∧
    (selection st).length ≤ 1000 ∧
    ((st.filter isCandidate).length ≤ 1000 →
      ∀ r ∈ st, isCandidate r = true → r ∈ selection st) := by
  refine ⟨fun r hr => selection_mem st r hr, ?_, ?_, ?_⟩
  · intro r hc hmem
    rw [(selection_mem st r hmem).2] at hc
    cases hc
  · exact List.length_take_le 1000 _
  · intro hle r hr hc
    rw [selection, List.take_of_length_le hle]
    exact List.mem_filter.mpr ⟨hr, hc⟩

/-- C3 witness: in a two-record store the candidate is selected, the
record with a non-empty embedding is not. -/
theorem claim_C3_witness :
    mkCand 0 ∈ selection wst3 ∧ ncRec ∉ selection wst3 ∧
    (selection wst3).length ≤ 1000 :=
  ⟨(claim_C3 wst3).2.2.2 (by decide) (mkCand 0) (by decide) rfl,
    (claim_C3 wst3).2.1 ncRec rfl,
    (claim_C3 wst3).2.2.1⟩

/-- C2: with the API key present, every exit path ends by closing the
store connection (it is the final observable action), the
store-connection-failure path exits with code 1 leaving the collection
untouched, and the two successful paths (normal completion and the
zero-candidate early exit) exit with code 0. -/
theorem claim_C2 (apiKey : Option String) (connectOk : Bool) (st : Store)
    (provider : Nat → Except Unit (List Vec))
    (hk : (apiKey.getD "").isEmpty = false) :
    (runProgram apiKey connectOk st provider).events.getLast? = some Event.closed ∧
    (connectOk = false →
      (runProgram apiKey connectOk st provider).exitCode = 1 ∧
      (runProgram apiKey connectOk st provider).store = st) ∧
    (connectOk = true → (runProgram apiKey connectOk st provider).exitCode = 0) := by
  have hrp : runProgram apiKey connectOk st provider = runMain connectOk st provider := by
    simp [runProgram, hk]
  rw [hrp]
  cases connectOk with
  | false => exact ⟨rfl, fun _ => ⟨rfl, rfl⟩, fun h => nomatch h⟩
  | true =>
    refine ⟨?_, ?_, ?_⟩
    · by_cases hc : (selection st).isEmpty
      · simp [runMain, hc]
      · simp only [Bool.not_eq_true] at hc
        simp only [runMain, if_true, hc, Bool.false_eq_true, if_neg]
        exact events_getLast_closed _ _ _
    · intro h
      exact absurd h (by simp)
    · intro _
      by_cases hc : (selection st).isEmpty <;> simp [runMain, hc]

/-- C2 witness: both the connection-failure path and a successful path,
at concrete inputs. -/
theorem claim_C2_witness :
    (runProgram (some "k") true noCandStore okProvider).events.getLast?
      = some Event.closed ∧
    (runProgram (some "k") false noCandStore okProvider).exitCode = 1 :=
  ⟨(claim_C2 (some "k") true noCandStore okProvider (by decide)).1,
    ((claim_C2 (some "k") false noCandStore okProvider (by decide)).2.1 rfl).1⟩

/-- Events of the per-record loop are part of the batch's event list. -/
theorem procBatch_events_sub (idx : Nat) (b : List Record) (vs : List Vec)
    (st : Store) (cnt : Nat) (hb : b ≠ []) :
    ∀ e ∈ (applyVectors (b.map (fun r => r.id)) vs st cnt).events,
      e ∈ (procBatch idx b (Except.ok vs) st cnt).events := by
  obtain ⟨x, xs, rfl⟩ := List.exists_cons_of_ne_nil hb
  intro e he
  exact List.mem_cons_of_mem _ (List.mem_append_left _ (List.mem_append_left _ he))

/-- C6: for a batch answered by the provider with vector list `vs`, the
updated count adds exactly the positions holding a non-empty vector,
exactly one provider call is made (no retry), and at each position `j`:
an empty vector leaves the record unmodified and logs it as skipped,
while a non-empty vector is persisted into that record's `embedding`
field (keyed by its `_id`) and logged as updated. -/
theorem claim_C6 (idx : Nat) (batch : List Record) (vs : List Vec) (st : Store)
    (cnt : Nat) (j : Nat) (hj : j < batch.length) (hv : j < vs.length)
    (hnd : (batch.map (fun r => r.id)).Nodup) :
    (procBatch idx batch (Except.ok vs) st cnt).count
        = cnt + ((batch.map (fun r => r.id)).zip vs).countP (fun q => !q.2.isEmpty) ∧
    (procBatch idx batch (Except.ok vs) st cnt).events.countP isProviderCallEv = 1 ∧
    (vs[j].isEmpty = true →
      findRec (procBatch idx batch (Except.ok vs) st cnt).store batch[j].id
          = findRec st batch[j].id ∧
      Event.skippedRecord batch[j].id
        ∈ (procBatch idx batch (Except.ok vs) st cnt).events) ∧
    (vs[j].isEmpty = false →
      findRec (procBatch idx batch (Except.ok vs) st cnt).store batch[j].id
          = (findRec st batch[j].id).map
              (fun x => { x with embedding := some (some vs[j]) }) ∧
      Event.updated batch[j].id vs[j]
        ∈ (procBatch idx batch (Except.ok vs) st cnt).events) := by
  have hne : batch ≠ [] :=
    List.ne_nil_of_length_pos (Nat.lt_of_le_of_lt (Nat.zero_le j) hj)
  have hj' : j < (batch.map (fun r => r.id)).length := by simpa using hj
  have hpos := applyVectors_find_pos (batch.map (fun r => r.id)) vs st cnt j hj' hv hnd
  simp only [List.getElem_map] at hpos
  refine ⟨?_, ?_, ?_, ?_⟩
  · rw [procBatch_count_ok, applyVectors_count]
  · rw [procBatch_countP_pc, List.isEmpty_eq_false.mpr hne]
    rfl
  · intro hemp
    obtain ⟨h1, h2⟩ := hpos.1 hemp
    exact ⟨by rw [procBatch_store_ok]; exact h1,
      procBatch_events_sub idx batch vs st cnt hne _ h2⟩
  · intro hemp
    obtain ⟨h1, h2⟩ := hpos.2 hemp
    exact ⟨by rw [procBatch_store_ok]; exact h1,
      procBatch_events_sub idx batch vs st cnt hne _ h2⟩

/-- C6 witness: a two-record batch with an empty vector at position 0 and
a non-empty one at position 1. -/
theorem claim_C6_witness :
    findRec (procBatch 0 w6batch (Except.ok w6vs) w6batch 0).store 2
        = (findRec w6batch 2).map
            (fun x => { x with embedding := some (some (w6vs.get ⟨1, by decide⟩)) }) ∧
    Event.updated 2 (w6vs.get ⟨1, by decide⟩)
      ∈ (procBatch 0 w6batch (Except.ok w6vs) w6batch 0).events ∧
    Event.skippedRecord 1 ∈ (procBatch 0 w6batch (Except.ok w6vs) w6batch 0).events := by
  have h1 := claim_C6 0 w6batch w6vs w6batch 0 1 (by decide) (by decide) (by decide)
  have h0 := claim_C6 0 w6batch w6vs w6batch 0 0 (by decide) (by decide) (by decide)
  obtain ⟨hA, hB⟩ := h1.2.2.2 (by decide)
  obtain ⟨_, hD⟩ := h0.2.2.1 (by decide)
  exact ⟨hA, hB, hD⟩

/-- C1 counterexample: the provider returns a well-formed `ok` response
holding one vector for a two-record batch (a malformed response for that
batch — the run logs the batch as failed), yet the first record's
embedding HAS been modified and the success counter HAS been
incremented: the batch is not left untouched. -/
theorem claim_C1_counterexample :
    (selection cexStore).length = 2 ∧
    cexProvider 0 = Except.ok [[5]] ∧
    Event.batchFailed 0 ∈ (runProgram (some "key") true cexStore cexProvider).events ∧
    findRec (runProgram (some "key") true cexStore cexProvider).store 1
      = some ⟨1, some "a", none, some (some [5])⟩ ∧
    Event.printedSummary 1 ∈ (runProgram (some "key") true cexStore cexProvider).events :=
  ⟨rfl, rfl, by decide, by decide, by decide⟩

/-- C1 (amended): if the provider call raises for a batch, none of that
batch's records are modified, the counter is unchanged for the batch,
the failure is logged, and execution continues with the next batch; if
the call instead returns a response with fewer vectors than the batch
has records, the positions that do have a returned vector are processed
normally (persisted and counted when non-empty) before the `IndexError`
aborts the batch, the batch is logged as failed, and execution continues
with the next batch from that partially-updated state. -/
theorem claim_C1 (provider : Nat → Except Unit (List Vec)) (b : List Record)
    (bs : List (List Record)) (idx : Nat) (st : Store) (cnt : Nat) :
    (∀ u : Unit, provider idx = Except.error u →
      (runBatches provider (b :: bs) idx st cnt).store
          = (runBatches provider bs (idx + 1) st cnt).store ∧
      (runBatches provider (b :: bs) idx st cnt).count
          = (runBatches provider bs (idx + 1) st cnt).count ∧
      (b ≠ [] →
        Event.batchFailed idx ∈ (runBatches provider (b :: bs) idx st cnt).events)) ∧
    (∀ vs : List Vec, provider idx = Except.ok vs → vs.length < b.length →
      (runBatches provider (b :: bs) idx st cnt).store
          = (runBatches provider bs (idx + 1)
              (applyVectors (b.map (fun r => r.id)) vs st cnt).store
              (applyVectors (b.map (fun r => r.id)) vs st cnt).count).store ∧
      Event.batchFailed idx ∈ (runBatches provider (b :: bs) idx st cnt).events) := by
  constructor
  · intro u hu
    simp only [runBatches, hu]
    refine ⟨?_, ?_, ?_⟩
    · rw [procBatch_store_error, procBatch_count_error]
    · rw [procBatch_store_error, procBatch_count_error]
    · intro hb
      obtain ⟨x, xs, rfl⟩ := List.exists_cons_of_ne_nil hb
      apply List.mem_append_left
      simp [procBatch]
  · intro vs hvs hlen
    have hb : b ≠ [] := by
      intro h
      rw [h] at hlen
      simp at hlen
    simp only [runBatches, hvs]
    refine ⟨?_, ?_⟩
    · rw [procBatch_store_ok, procBatch_count_ok]
    · apply List.mem_append_left
      obtain ⟨x, xs, rfl⟩ := List.exists_cons_of_ne_nil hb
      have hie := applyVectors_indexError (x.id :: xs.map (fun r => r.id)) vs st cnt
        (by simpa using hlen)
      simp [procBatch, hie]

/-- C1 witness: a raising provider leaves the batch untouched and logs
the failure; the malformed-response case also logs the failure. -/
theorem claim_C1_witness :
    (runBatches errProvider [[mkCand 0]] 0 [mkCand 0] 0).store
        = (runBatches errProvider [] 1 [mkCand 0] 0).store ∧
    Event.batchFailed 0 ∈ (runBatches errProvider [[mkCand 0]] 0 [mkCand 0] 0).events ∧
    Event.batchFailed 0 ∈ (runBatches cexProvider [cexStore] 0 cexStore 0).events := by
  have h1 := (claim_C1 errProvider [mkCand 0] [] 0 [mkCand 0] 0).1 () rfl
  have h2 := (claim_C1 cexProvider cexStore [] 0 cexStore 0).2 [[5]] rfl (by decide)
  exact ⟨h1.1, h1.2.2 (by decide), h2.2⟩

/-- C7: with 25 candidates, exactly 3 batches are formed with sizes
10, 10 and 5, the run makes exactly one provider call and one pause per
batch (3 of each), and the printed summary equals the number of batch
positions whose returned vector was non-empty (`totalGain`). -/
theorem claim_C7 (st : Store) (provider : Nat → Except Unit (List Vec))
    (h : (selection st).length = 25) :
    (batches (selection st)).map List.length = [10, 10, 5] ∧
    (runMain true st provider).events.countP isProviderCallEv = 3 ∧
    (runMain true st provider).events.countP isSleptEv = 3 ∧
    Event.printedSummary (totalGain provider (batches (selection st)) 0)
      ∈ (runMain true st provider).events := by
  obtain ⟨hb, hmap⟩ := batches_of_len25 (selection st) h
  have hne : (selection st).isEmpty = false := by
    rw [List.isEmpty_eq_false]
    intro hnil
    rw [hnil] at h
    simp at h
  have hlen1 : ((selection st).take BATCH_SIZE).length = 10 := by
    rw [List.length_take, h]
    rfl
  have hlen2 : (((selection st).drop BATCH_SIZE).take BATCH_SIZE).length = 10 := by
    rw [List.length_take, List.length_drop, h]
    rfl
  have hlen3 : (((selection st).drop BATCH_SIZE).drop BATCH_SIZE).length = 5 := by
    rw [List.length_drop, List.length_drop, h]
    rfl
  have hcnt3 : (batches (selection st)).countP (fun b => !b.isEmpty) = 3 := by
    rw [hb]
    have e1 : ((selection st).take BATCH_SIZE).isEmpty = false :=
      List.isEmpty_eq_false.mpr (List.ne_nil_of_length_pos (by rw [hlen1]; norm_num))
    have e2 : (((selection st).drop BATCH_SIZE).take BATCH_SIZE).isEmpty = false :=
      List.isEmpty_eq_false.mpr (List.ne_nil_of_length_pos (by rw [hlen2]; norm_num))
    have e3 : (((selection st).drop BATCH_SIZE).drop BATCH_SIZE).isEmpty = false :=
      List.isEmpty_eq_false.mpr (List.ne_nil_of_length_pos (by rw [hlen3]; norm_num))
    have hlt : BATCH_SIZE + BATCH_SIZE < (selection st).length := by
      rw [h]
      norm_num [BATCH_SIZE]
    norm_num [List.countP_cons, List.countP_nil, e1, e2, e3, hlt]
  have hpc := runBatches_countP isProviderCallEv procBatch_countP_pc provider
    (batches (selection st)) 0 st 0
  have hsl := runBatches_countP isSleptEv procBatch_countP_slept provider
    (batches (selection st)) 0 st 0
  rw [hcnt3] at hpc hsl
  have hcount := runBatches_count provider (batches (selection st)) 0 st 0
  refine ⟨hmap, ?_, ?_, ?_⟩
  · simp [runMain, hne, List.countP_cons, List.countP_append, hpc,
      isProviderCallEv]
  · simp [runMain, hne, List.countP_cons, List.countP_append, hsl, isSleptEv]
  · simp [runMain, hne, List.mem_append, hcount]

/-- C7 witness: 25 concrete candidates and a provider answering ten
non-empty vectors per call. -/
theorem claim_C7_witness :
    (batches (selection store25)).map List.length = [10, 10, 5] ∧
    (runMain true store25 okProvider).events.countP isProviderCallEv = 3 ∧
    (runMain true store25 okProvider).events.countP isSleptEv = 3 ∧
    Event.printedSummary (totalGain okProvider (batches (selection store25)) 0)
      ∈ (runMain true store25 okProvider).events :=
  claim_C7 store25 okProvider (by decide)

theorem updateOne_length (st : Store) (p : Nat) (v : Vec) :
    (updateOne st p v).length = st.length := by
  induction st with
  | nil => rfl
  | cons r rs ih =>
    by_cases hr : r.id = p
    · simp [updateOne, hr]
    · simp [updateOne, hr, ih]

theorem updateOne_pointwise (st : Store) (p : Nat) (v : Vec) (k : Nat) (r : Record)
    (hk : st[k]? = some r) :
    (updateOne st p v)[k]? = some r ∨
      ((updateOne st p v)[k]? = some { r with embedding := some (some v) } ∧
        r.id = p ∧
        ∀ (m : Nat) (rm : Record), m < k → st[m]? = some rm → rm.id ≠ p) := by
  induction st generalizing k with
  | nil => simp at hk
  | cons r0 rs ih =>
    by_cases hr : r0.id = p
    · cases k with
      | zero =>
        simp only [List.getElem?_cons_zero, Option.some.injEq] at hk
        subst hk
        right
        refine ⟨?_, hr, fun m rm hm _ => absurd hm (Nat.not_lt_zero m)⟩
        simp [updateOne, hr]
      | succ k =>
        left
        simp only [updateOne, if_pos hr]
        simpa using hk
    · cases k with
      | zero =>
        left
        simp only [List.getElem?_cons_zero, Option.some.injEq] at hk
        subst hk
        simp [updateOne, hr]
      | succ k =>
        simp only [List.getElem?_cons_succ] at hk
        rcases ih k hk with h1 | ⟨h1, h2, h3⟩
        · left
          simpa [updateOne, hr] using h1
        · right
          refine ⟨by simpa [updateOne, hr] using h1, h2, ?_⟩
          intro m rm hm hmk
          cases m with
          | zero =>
            simp only [List.getElem?_cons_zero, Option.some.injEq] at hmk
            subst hmk
            exact hr
          | succ m =>
            simp only [List.getElem?_cons_succ] at hmk
            exact h3 m rm (by omega) hmk

/-- C10 (implicit invariant): each `update_one` preserves the number of
documents and every field of every document except the `embedding` of
the first document whose `_id` matches; and every vector the run writes
is non-empty, so a document the run updated is no longer a candidate in
the final collection. -/
theorem claim_C10 :
    (∀ (st : Store) (p : Nat) (v : Vec), (updateOne st p v).length = st.length) ∧
    (∀ (st : Store) (p : Nat) (v : Vec) (k : Nat) (r : Record),
      st[k]? = some r →
      (updateOne st p v)[k]? = some r ∨
        ((updateOne st p v)[k]? = some { r with embedding := some (some v) } ∧
          r.id = p ∧
          ∀ (m : Nat) (rm : Record), m < k → st[m]? = some rm → rm.id ≠ p)) ∧
    (∀ (st : Store) (provider : Nat → Except Unit (List Vec)) (pid : Nat) (v : Vec),
      Event.updated pid v ∈ (runMain true st provider).events →
      v ≠ [] ∧ notCandAt (runMain true st provider).store pid) := by
  refine ⟨updateOne_length, updateOne_pointwise, ?_⟩
  intro st provider pid v hmem
  by_cases hc : (selection st).isEmpty
  · simp [runMain, hc] at hmem
  · have hc' : (selection st).isEmpty = false := Bool.not_eq_true _ ▸ eq_false_of_ne_true hc
    have hrm : runMain true st provider
        = ⟨(runBatches provider (batches (selection st)) 0 st 0).store,
            Event.connected :: Event.queried (selection st).length ::
              (runBatches provider (batches (selection st)) 0 st 0).events
              ++ [Event.printedSummary
                    (runBatches provider (batches (selection st)) 0 st 0).count,
                  Event.closed], 0⟩ := by
      simp [runMain, hc']
    rw [hrm] at hmem ⊢
    simp only [List.mem_cons, List.mem_append, List.mem_singleton] at hmem
    have hmem' : Event.updated pid v
        ∈ (runBatches provider (batches (selection st)) 0 st 0).events := by
      rcases hmem with (h | h | h) | h | h
      · exact absurd h (by simp)
      · exact absurd h (by simp)
      · exact h
      · exact absurd h (by simp)
      · exact absurd h (by simp)
    constructor
    · exact List.isEmpty_eq_false.mp
        (runBatches_updated_nonempty provider _ 0 st 0 pid v hmem')
    · apply runBatches_notCand provider _ 0 st 0 pid ?_ (Or.inr ⟨v, hmem'⟩)
      intro b hb r hr
      have hfl : r ∈ (batches (selection st)).flatten := List.mem_flatten.mpr ⟨b, hb, hr⟩
      rw [batches_flatten] at hfl
      exact selection_find_isSome st r hfl

/-- C10 witness: in the malformed-response run, record 1 was updated
with the non-empty vector `[5]` and is no longer a candidate; the
untouched record 2 is preserved by the update. -/
theorem claim_C10_witness :
    (updateOne cexStore 1 [5]).length = cexStore.length ∧
    (updateOne cexStore 1 [5])[1]? = some ⟨2, some "b", none, none⟩ ∧
    [5] ≠ ([] : Vec) ∧ notCandAt (runMain true cexStore cexProvider).store 1 := by
  have h1 := claim_C10.1 cexStore 1 [5]
  have h2 := claim_C10.2.1 cexStore 1 [5] 1 ⟨2, some "b", none, none⟩ (by decide)
  have h3 := claim_C10.2.2 cexStore cexProvider 1 [5] (by decide)
  refine ⟨h1, ?_, h3.1, h3.2⟩
  rcases h2 with h | ⟨_, hid, _⟩
  · exact h
  · exact absurd hid (by decide)

end PopulateEmbeddings
